import Mathlib

/-!
Bootstrap script `server.js`.

A shallow embedding of the start-up script of the property-management
server: the values it reads from `process.env`, the middleware it registers
with `app.use` (in source order), the merge of the template helpers into
`app.locals`, the per-request formatting middleware, and the
`db.init().then(...).catch(...)` chain that gates `app.listen`.

Paths are lists of segments relative to `__dirname`; URL paths are lists of
segments relative to `/`.
-/

namespace Server

/-! ## JavaScript values and `process.env` -/

/-- The JavaScript values the script combines with `||`. -/
inductive JsVal where
  | undefined
  | str (s : String)
  | num (n : Nat)
deriving DecidableEq, Repr

/-- JavaScript truthiness: `undefined`, the empty string and `0` are falsy. -/
def JsVal.truthy : JsVal → Bool
  | .undefined => false
  | .str s => s != ""
  | .num n => n != 0

/-- The operator `a || b`. -/
def jsOr (a b : JsVal) : JsVal := if a.truthy then a else b

/-- String conversion as done by `'...' + v`. -/
def JsVal.toStr : JsVal → String
  | .undefined => "undefined"
  | .str s => s
  | .num n => toString n

/-- The object `process.env`: a variable is either unset or a string. -/
abbrev Env := String → Option String

/-- The expression `process.env.NAME`. -/
def Env.read (env : Env) (name : String) : JsVal :=
  match env name with
  | some s => .str s
  | none => .undefined

/-- Line 3: `process.env.NODE_ENV !== 'production'`. -/
def debugMode (env : Env) : Bool := env.read "NODE_ENV" != .str "production"

/-- Line 8: the level of the console sink. -/
def loggerLevel (env : Env) : JsVal :=
  jsOr (env.read "LOCA_LOGGER_LEVEL") (jsOr (env.read "LOGGER_LEVEL") (.str "debug"))

/-- Line 147: `process.env.LOCA_NODEJS_PORT || process.env.PORT || 8082`. -/
def http_port (env : Env) : JsVal :=
  jsOr (env.read "LOCA_NODEJS_PORT") (jsOr (env.read "PORT") (.num 8082))

/-! ## Paths -/

abbrev Path := List String

/-- Line 35: `__dirname`, the origin of all file-system paths. -/
def root_directory : Path := []

/-- Line 36: `path.join(root_directory, 'dist')`. -/
def dist_directory : Path := root_directory ++ ["dist"]

/-- Line 158: the configuration directory that is logged. -/
def configdir (env : Env) : JsVal :=
  jsOr (env.read "LOCA_CONFIG_DIR")
    (jsOr (env.read "CONFIG_DIR") (.str ("/".intercalate (root_directory ++ ["config"]))))

/-! ## Localization options (lines 38-56) -/

/-- The places a language can be looked up in, or cached to. -/
inductive LangSource where
  | cookie
  | header
deriving DecidableEq, Repr

/-- The `detection` block handed to `i18next.init`. -/
structure DetectionOptions where
  order : List LangSource
  lookupCookie : String
  cookieDomain : String
  caches : List LangSource
deriving DecidableEq, Repr

/-- The options handed to `i18next.init`. -/
structure I18nOptions where
  debug : Bool
  fallbackLng : String
  pluralSeparator : String
  keySeparator : String
  nsSeparator : String
  detection : DetectionOptions
  loadPath : Path
deriving DecidableEq, Repr

/-- Lines 41-56. -/
def i18nOptions : I18nOptions where
  debug := false
  fallbackLng := "en"
  pluralSeparator := "_"
  keySeparator := "::"
  nsSeparator := ":::"
  detection :=
    { order := [.cookie, .header]
      lookupCookie := "locaI18next"
      cookieDomain := "loca"
      caches := [.cookie] }
  loadPath := dist_directory ++ ["locales", "{{lng}}.json"]

/-! ## Middleware stages registered with `app.use` -/

/-- The options handed to `session(...)`. -/
structure SessionOptions where
  secret : String
  resave : Bool
  saveUninitialized : Bool
  cookieMaxAge : Nat
deriving DecidableEq, Repr

/-- Lines 64-71. -/
def sessionOptions : SessionOptions where
  secret := "loca-secret"
  resave := false
  saveUninitialized := false
  cookieMaxAge := 5 * 60 * 1000

/-- A value handed to `app.use` by the route table, named by an identifier. -/
abbrev Handler := String

/-- One call of `app.use`, by what is registered. -/
inductive Stage where
  | bodyParserUrlencoded (extended : Bool)
  | bodyParserJson
  | methodOverride
  | session (opts : SessionOptions)
  | passportInitialize
  | passportSession
  | i18nHandle (opts : I18nOptions)
  | intlInjection
  | favicon (file : Path) (maxAge : Nat)
  | static (mount : Path) (root : Path)
  | accessLogger
  | errorLogger
  | route (h : Handler)
  | errorHandler
deriving DecidableEq, Repr

/-- An entry of `indexRouter`: a JavaScript value for which
`typeof route === 'function'` holds (with the value `route()` returns), or any
other value. -/
inductive RouteEntry where
  | func (self : Handler) (returns : Handler)
  | other (self : Handler)
deriving DecidableEq, Repr

/-- The test `typeof route === 'function'`. -/
def RouteEntry.typeofFunction : RouteEntry → Bool
  | .func _ _ => true
  | .other _ => false

/-- The entry itself, as a value. -/
def RouteEntry.self : RouteEntry → Handler
  | .func self _ => self
  | .other self => self

/-- What `route()` returns, for an entry that can be called. -/
def RouteEntry.returned : RouteEntry → Option Handler
  | .func _ returns => some returns
  | .other _ => none

/-- The route table as described: a factory contributes what it returns, any
other entry contributes itself, decided by `typeof`. -/
def RouteEntry.mounted (route : RouteEntry) : Handler :=
  if route.typeofFunction then route.returned.getD route.self else route.self

/-- The route table as described: an entry is a middleware, which is any value
`app.use` accepts (a middleware function and a router are functions), or a
factory that returns the middleware. -/
inductive RouteUnit where
  | middleware (value : RouteEntry)
  | factory (self : Handler) (makes : Handler)
deriving DecidableEq, Repr

/-- The JavaScript value of a described entry. -/
def RouteUnit.entry : RouteUnit → RouteEntry
  | .middleware value => value
  | .factory self makes => .func self makes

/-- What the description mounts for an entry: a middleware itself, and what a
factory returns. -/
def RouteUnit.describedMount : RouteUnit → Handler
  | .middleware value => value.self
  | .factory _ makes => makes

/-- What the description calls for an entry: a factory, and nothing else. -/
def RouteUnit.describedCall : RouteUnit → Option Handler
  | .middleware _ => none
  | .factory self _ => some self

/-! ## The effects of start-up -/

/-- The error value a promise rejects with, or a call throws. -/
abbrev Err := String

/-- Everything the script does to the outside world, in the order done. -/
inductive Effect where
  | loggerRemoveConsole
  | loggerAddConsole (level : JsVal) (colorize : Bool)
  | i18nInit (opts : I18nOptions)
  | use (s : Stage)
  | call (f : Handler)
  | appSet (key : String) (value : String)
  | appEngine (ext : String) (engine : String)
  | mergeLocals
  | dbInit
  | listen (port : JsVal)
  | info (msg : String)
  | debug (args : List String)
  | error (e : Err)
  | liveReload (watch : List String) (port : Nat)
  | exit (code : Nat)
deriving DecidableEq, Repr

/-- Lines 59-88: body parsing up to the formatting middleware. -/
def pipelineHead : List Stage :=
  [ .bodyParserUrlencoded true,
    .bodyParserJson,
    .methodOverride,
    .session sessionOptions,
    .passportInitialize,
    .passportSession,
    .i18nHandle i18nOptions,
    .intlInjection ]

/-- Lines 90-100: the favicon and the static mounts. -/
def staticMounts : List Stage :=
  [ .favicon (dist_directory ++ ["images", "favicon.png"]) 2592000000,
    .static ["node_modules"] (root_directory ++ ["node_modules"]),
    .static ["public"] dist_directory,
    .static ["public", "image"] (dist_directory ++ ["images"]),
    .static ["public", "images"] (dist_directory ++ ["images"]),
    .static ["public", "fonts"] (root_directory ++ ["node_modules", "bootstrap", "fonts"]),
    .static ["public", "pdf"] (dist_directory ++ ["pdf"]),
    .static ["robots.txt"] (dist_directory ++ ["robots.txt"]),
    .static ["sitemap.xml"] (dist_directory ++ ["sitemap.xml"]) ]

/-- Lines 106-125: access logging, then error logging. -/
def loggingStages : List Stage := [.accessLogger, .errorLogger]

/-- Lines 127-133: `indexRouter.forEach`; an entry that is a function is called
and what it returns is handed to `app.use`, any other entry is handed over
itself. -/
def mountRoutes : List RouteEntry → List Effect
  | [] => []
  | .func self returns :: rest =>
    [Effect.call self, Effect.use (.route returns)] ++ mountRoutes rest
  | .other self :: rest =>
    [Effect.use (.route self)] ++ mountRoutes rest

/-- Lines 136-138. -/
def debugStages (env : Env) : List Stage :=
  if debugMode env then [.errorHandler] else []

/-- Lines 5-143: the synchronous part of the script. -/
def syncEffects (env : Env) (indexRouter : List RouteEntry) : List Effect :=
  [.loggerRemoveConsole, .loggerAddConsole (loggerLevel env) true, .i18nInit i18nOptions]
    ++ pipelineHead.map Effect.use
    ++ staticMounts.map Effect.use
    ++ [.appSet "views" ("/".intercalate (root_directory ++ ["backend", "pages"])),
        .appSet "view engine" "ejs",
        .appEngine "html" "ejs.renderFile"]
    ++ loggingStages.map Effect.use
    ++ mountRoutes indexRouter
    ++ (debugStages env).map Effect.use
    ++ [.mergeLocals]

/-- The stages handed to `app.use`, in the order of the calls. -/
def usesOf : List Effect → List Stage
  | [] => []
  | .use s :: rest => s :: usesOf rest
  | _ :: rest => usesOf rest

/-- The functions called, in the order of the calls. -/
def callsOf : List Effect → List Handler
  | [] => []
  | .call f :: rest => f :: callsOf rest
  | _ :: rest => callsOf rest

/-- Every stage the script registers on the app, in registration order. -/
def registered (env : Env) (indexRouter : List RouteEntry) : List Stage :=
  usesOf (syncEffects env indexRouter)

/-! ## `db.init().then(...).catch(...)` (lines 145-173) -/

/-- The part of `config` the script reads. -/
structure Config where
  demomode : Bool
  json : String

/-- How the promise returned by `db.init()` settles. -/
inductive DbOutcome where
  | resolved
  | rejected (e : Err)
deriving DecidableEq, Repr

/-- What `app.listen` does: throw, invoke its callback, or neither. -/
inductive ListenOutcome where
  | threw (e : Err)
  | listening
  | silent
deriving DecidableEq, Repr

/-- Lines 149-167: the callback handed to `app.listen`. -/
def listenCallback (env : Env) (config : Config) : List Effect :=
  [.info ("Listening port " ++ (http_port env).toStr)]
    ++ [if !debugMode env then .info "In production mode"
        else .info "In development mode (no minify/no uglify)"]
    ++ (if config.demomode then [.info "In demo mode (login disabled)"] else [])
    ++ [.debug ["loaded configuration from", (configdir env).toStr], .debug [config.json]]
    ++ (if debugMode env then [.liveReload ["dist"] 9091] else [])

/-- Lines 170-173: the rejection handler; `process.exit` ends the run. -/
def catchHandler (err : Err) : List Effect := [.error err, .exit 1]

/-- Lines 146-169: the fulfilment handler; an exception thrown in it is handed
to the rejection handler chained after it. -/
def thenHandler (env : Env) (config : Config) (l : ListenOutcome) : List Effect :=
  match l with
  | .threw e => [.listen (http_port env)] ++ catchHandler e
  | .listening => [.listen (http_port env)] ++ listenCallback env config
  | .silent => [.listen (http_port env)]

/-- Lines 145-173. -/
def afterInit (env : Env) (config : Config) (db : DbOutcome) (l : ListenOutcome) :
    List Effect :=
  match db with
  | .resolved => thenHandler env config l
  | .rejected e => catchHandler e

/-- The whole run of the script. -/
def startup (env : Env) (indexRouter : List RouteEntry) (config : Config)
    (db : DbOutcome) (l : ListenOutcome) : List Effect :=
  syncEffects env indexRouter ++ [.dbInit] ++ afterInit env config db l

/-! ## `app.locals` -/

/-- The options of an `Intl.NumberFormat`. -/
structure NumberFormat where
  locale : String
  style : Option String
  currency : Option String
  maximumSignificantDigits : Option Nat
deriving DecidableEq, Repr

/-- The values stored in `app.locals`. -/
inductive LocalVal where
  | other (tag : String)
  | intl (numberFormat : NumberFormat) (numberFormatCurrency : NumberFormat)
deriving DecidableEq, Repr

/-- A JavaScript object: its own properties in insertion order. -/
abbrev Obj := List (String × LocalVal)

/-- Property read `o[k]`. -/
def Obj.get : Obj → String → Option LocalVal
  | [], _ => none
  | (k, v) :: rest, key => if k = key then some v else Obj.get rest key

/-- Property write `o[k] = v`: an existing property keeps its place. -/
def Obj.set : Obj → String → LocalVal → Obj
  | [], key, val => [(key, val)]
  | (k, v) :: rest, key, val =>
    if k = key then (k, val) :: rest else (k, v) :: Obj.set rest key val

/-- Copying the properties of `src` onto `target`, in the order of `src`. -/
def Obj.assign (target : Obj) : Obj → Obj
  | [] => target
  | (k, v) :: rest => Obj.assign (target.set k v) rest

/-- The object literal `{ ...a, ...b }`. -/
def Obj.spread (a b : Obj) : Obj := Obj.assign (Obj.assign [] a) b

/-- Lines 140-143: `app.locals = { ...app.locals, ...ejsHelpers }`. -/
def mergedLocals (locals ejsHelpers : Obj) : Obj := Obj.spread locals ejsHelpers

/-- A well-formed object has no property twice. -/
def Obj.WellFormed (o : Obj) : Prop := (o.map Prod.fst).Nodup

instance (o : Obj) : Decidable o.WellFormed := by
  unfold Obj.WellFormed; infer_instance

/-! ## The formatting middleware (lines 75-88) -/

/-- What the script does not decide about the two libraries the middleware
calls: the language tags `new Intl.NumberFormat(tag, ...)` accepts (on any other
tag it throws a `RangeError`), and the locale `moment` loads for a key, if it
has one. -/
structure LocaleLibs where
  numberFormatAccepts : String → Bool
  momentResolves : String → Option String

/-- What the middleware writes: `app.locals`, and the global locale of `moment`. -/
structure AppState where
  locals : Obj
  dateLocale : String
deriving DecidableEq, Repr

/-- What the middleware does besides writing the state: the call of
`moment.locale`, the call of `next`, or an exception that ends it. -/
inductive ReqEffect where
  | momentLocale (key : String)
  | next
  | threw (error : String)
deriving DecidableEq, Repr

/-- The method `s.split(sep)` for a one-character separator, on characters. -/
def jsSplit (sep : Char) : List Char → List (List Char)
  | [] => [[]]
  | c :: cs =>
    if c = sep then [] :: jsSplit sep cs
    else
      match jsSplit sep cs with
      | [] => [[c]]
      | piece :: pieces => (c :: piece) :: pieces

/-- Lines 85-86: `req.language.split('-')[0]`. -/
def splitedLanguage0 (language : String) : String :=
  String.mk ((jsSplit '-' language.data).headD [])

/-- Lines 76-84: the object assigned to `app.locals.Intl`. -/
def intlFor (language : String) : LocalVal :=
  .intl
    { locale := language, style := none, currency := none,
      maximumSignificantDigits := some 2 }
    { locale := language, style := some "currency", currency := some "USD",
      maximumSignificantDigits := none }

/-- Line 86: `moment.locale(key)` makes the locale loaded for the key the global
one, and leaves the global locale as it was when there is none for the key. -/
def momentLocale (libs : LocaleLibs) (current : String) (key : String) : String :=
  match libs.momentResolves key with
  | some loaded => loaded
  | none => current

/-- Lines 75-88: the middleware, on the current state and `req.language`. The
formatters of lines 77-83 are built first: when the constructor throws, nothing
is assigned and neither `moment.locale` nor `next` is called. -/
def intlInjection (libs : LocaleLibs) (st : AppState) (language : String) :
    AppState × List ReqEffect :=
  if libs.numberFormatAccepts language then
    ({ locals := st.locals.set "Intl" (intlFor language),
       dateLocale := momentLocale libs st.dateLocale (splitedLanguage0 language) },
     [.momentLocale (splitedLanguage0 language), .next])
  else
    (st, [.threw "RangeError"])

/-- Libraries as they stand for the tags below: the number formatter rejects
`fr_FR` (an underscore is not part of a language tag), and `moment` has the
locales `en` and `fr` and none for `zh`. -/
def stockLibs : LocaleLibs where
  numberFormatAccepts := fun tag => tag != "fr_FR"
  momentResolves := fun key => if key = "en" ∨ key = "fr" then some key else none

/-- The formatting stage as described: for the language `L` it stores the
formatters built for `L`, sets the date locale to the part of `L` before its
first `-`, and passes the request on once. -/
def InjectsFor (libs : LocaleLibs) (st : AppState) (L : String) : Prop :=
  (intlInjection libs st L).1.locals.get "Intl" = some (intlFor L)
    ∧ (intlInjection libs st L).1.dateLocale
        = String.mk (L.data.takeWhile (fun c => c != '-'))
    ∧ (intlInjection libs st L).2.count .next = 1

instance (libs : LocaleLibs) (st : AppState) (L : String) :
    Decidable (InjectsFor libs st L) := by
  unfold InjectsFor; infer_instance

/-! ## Requests -/

/-- The parts of a request the stages below look at: the method, the URL path,
the cookies, and the languages of `Accept-Language` in order of preference. -/
structure Request where
  method : String
  path : Path
  cookies : List (String × String)
  acceptLanguage : List String
deriving DecidableEq, Repr

/-- The value of the cookie `name`, when the request carries it. -/
def Request.cookie (req : Request) (name : String) : Option String :=
  (req.cookies.find? (fun c => c.1 == name)).map Prod.snd

/-! ## Locale detection -/

/-- A `Set-Cookie` header of the response. -/
structure SetCookie where
  name : String
  value : String
  domain : String
deriving DecidableEq, Repr

/-- The request carries a cookie `name`, and the first one has the value `v`. -/
def Request.Carries (req : Request) (name v : String) : Prop :=
  ∃ before after, req.cookies = before ++ (name, v) :: after ∧ ∀ c ∈ before, c.1 ≠ name

/-- The request carries no cookie `name`. -/
def Request.Lacks (req : Request) (name : String) : Prop :=
  ∀ c ∈ req.cookies, c.1 ≠ name

/-- Modelled from the spec: the lookup of one detection source of the language
detector of `i18next-express-middleware` (not part of this repository): the
cookie named by `lookupCookie`, or the languages of the header in order of
preference. -/
def lookupLanguage (d : DetectionOptions) (req : Request) : LangSource → List String
  | .cookie => (req.cookie d.lookupCookie).toList
  | .header => req.acceptLanguage

/-- Modelled from the spec: the candidates the detector of
`i18next-express-middleware` (not part of this repository) collects from the
sources, in the order the sources are asked. -/
def detections (d : DetectionOptions) (req : Request) : List LangSource → List String
  | [] => []
  | source :: rest => lookupLanguage d req source ++ detections d req rest

/-- Modelled from the spec: the detector of `i18next-express-middleware` (not
part of this repository) asks the sources of `order` in turn and selects the
first candidate that is not the empty string (an empty value is falsy and is
passed over), and the fallback language when there is none. -/
def detectLanguage (o : I18nOptions) (req : Request) : String :=
  ((detections o.detection req o.detection.order).find? (fun lng => lng != "")).getD
    o.fallbackLng

/-- Locale detection as described: the cookie `locaI18next` when present, else
the preferred language of the header, else `en`. -/
def describedLanguage (req : Request) : String :=
  match req.cookies.find? (fun c => c.1 == "locaI18next") with
  | some c => c.2
  | none =>
    match req.acceptLanguage with
    | lng :: _ => lng
    | [] => "en"

/-- Modelled from the spec: the detector of `i18next-express-middleware` (not
part of this repository) caches the selected language in every store of
`caches`; the cookie store answers with a `Set-Cookie`. -/
def cacheUserLanguage (d : DetectionOptions) (lng : String) : List SetCookie :=
  d.caches.filterMap (fun c =>
    match c with
    | .cookie => some { name := d.lookupCookie, value := lng, domain := d.cookieDomain }
    | .header => none)

/-- Line 74: the stage `i18nMiddleware.handle(i18next)` on a request: the value
of `req.language` and the cookies it sets. -/
def i18nHandle (o : I18nOptions) (req : Request) : String × List SetCookie :=
  (detectLanguage o req, cacheUserLanguage o.detection (detectLanguage o req))

/-! ## Request dispatch -/

/-- What the script does not decide: which files the static middleware finds
under a file-system path, and which of the other stages end a request. -/
structure World where
  servable : Path → Bool
  ends : Stage → Request → Bool

/-- The URL path a stage is mounted on (`/` when `app.use` is given none). -/
def Stage.mount : Stage → Path
  | .static mount _ => mount
  | _ => []

/-- Modelled from the spec: a stage either continues or short-circuits the
pipeline. The static middleware of the web framework (not part of this
repository) answers a `GET` or `HEAD` request whose path below the mount names a
file it finds under its root, and passes every other request on. -/
def Stage.answers (w : World) (req : Request) : Stage → Bool
  | .static mount root =>
    (req.method == "GET" || req.method == "HEAD")
      && w.servable (root ++ req.path.drop mount.length)
  | s => w.ends s req

/-- Modelled from the spec: the router of the web framework (not part of this
repository) offers a request to the stages in registration order, skipping those
whose mount path does not start the request path, until one answers. The result
is the list of the stages that received the request. -/
def received (w : World) (req : Request) : List Stage → List Stage
  | [] => []
  | s :: rest =>
    if s.mount.isPrefixOf req.path then
      if s.answers w req then [s] else s :: received w req rest
    else received w req rest

/-- The stage that answered the request, if one did. -/
def answeredBy (w : World) (req : Request) : List Stage → Option Stage
  | [] => none
  | s :: rest =>
    if s.mount.isPrefixOf req.path then
      if s.answers w req then some s else answeredBy w req rest
    else answeredBy w req rest

/-- Whether a stage is one of the route-table entries. -/
def Stage.isRoute : Stage → Bool
  | .route _ => true
  | _ => false

/-- Line 94: `app.use('/public', express.static(dist_directory))`. -/
def publicMount : Stage := .static ["public"] dist_directory

/-- Line 98: `app.use('/public/pdf', express.static(path.join(dist_directory, 'pdf')))`. -/
def pdfMount : Stage := .static ["public", "pdf"] (dist_directory ++ ["pdf"])

/-- Line 90: the favicon middleware. -/
def faviconStage : Stage := .favicon (dist_directory ++ ["images", "favicon.png"]) 2592000000

/-- Static mount precedence as described: the request is answered by the mount
of the pdf directory and no route-table entry receives it. -/
def AnsweredByPdfMount (w : World) (env : Env) (indexRouter : List RouteEntry)
    (req : Request) : Prop :=
  answeredBy w req (registered env indexRouter) = some pdfMount
    ∧ ∀ s ∈ received w req (registered env indexRouter), s.isRoute = false

instance (w : World) (env : Env) (indexRouter : List RouteEntry) (req : Request) :
    Decidable (AnsweredByPdfMount w env indexRouter req) := by
  unfold AnsweredByPdfMount; infer_instance

/-! ## The pipeline as described -/

/-- The kinds of stage the pipeline is described with. -/
inductive StageKind where
  | bodyParsing
  | methodOverride
  | sessionStore
  | authContext
  | localization
  | formatting
  | staticFiles
  | accessLogging
  | errorLogging
  | routeEntry
  | debugErrorHandler
deriving DecidableEq, Repr

/-- The kind of a registered stage; the favicon middleware serves a file of
`dist` and counts as a static file mount. -/
def Stage.kind : Stage → StageKind
  | .bodyParserUrlencoded _ => .bodyParsing
  | .bodyParserJson => .bodyParsing
  | .methodOverride => .methodOverride
  | .session _ => .sessionStore
  | .passportInitialize => .authContext
  | .passportSession => .authContext
  | .i18nHandle _ => .localization
  | .intlInjection => .formatting
  | .favicon _ _ => .staticFiles
  | .static _ _ => .staticFiles
  | .accessLogger => .accessLogging
  | .errorLogger => .errorLogging
  | .route _ => .routeEntry
  | .errorHandler => .debugErrorHandler

/-- The position of a kind in the described order. -/
def StageKind.rank : StageKind → Nat
  | .bodyParsing => 0
  | .methodOverride => 1
  | .sessionStore => 2
  | .authContext => 3
  | .localization => 4
  | .formatting => 5
  | .staticFiles => 6
  | .accessLogging => 7
  | .errorLogging => 8
  | .routeEntry => 9
  | .debugErrorHandler => 10

/-- A sequence of kinds with every run of equal neighbours shortened to one. -/
def collapse : List StageKind → List StageKind
  | [] => []
  | [k] => [k]
  | k :: k' :: rest =>
    if k = k' then collapse (k' :: rest) else k :: collapse (k' :: rest)

/-- The order of stages as described: the nine kinds of the pipeline, and only
then the route-table entries (when there are any). -/
def describedOrder (indexRouter : List RouteEntry) : List StageKind :=
  [.bodyParsing, .methodOverride, .sessionStore, .authContext, .localization,
   .formatting, .staticFiles, .accessLogging, .errorLogging]
    ++ (if indexRouter.isEmpty then [] else [.routeEntry])

/-- The registered stages follow the described order exactly. -/
def FollowsDescribedOrder (env : Env) (indexRouter : List RouteEntry) : Prop :=
  collapse ((registered env indexRouter).map Stage.kind) = describedOrder indexRouter

/-- The route table is mounted as described: every middleware is mounted itself
and not called, every factory is called and what it returns is mounted. -/
def MountedAsDescribed (units : List RouteUnit) : Prop :=
  usesOf (mountRoutes (units.map RouteUnit.entry))
      = units.map (fun u => Stage.route u.describedMount)
    ∧ callsOf (mountRoutes (units.map RouteUnit.entry))
      = units.filterMap RouteUnit.describedCall

instance (units : List RouteUnit) : Decidable (MountedAsDescribed units) := by
  unfold MountedAsDescribed; infer_instance

/-- Effects of the synchronous part of the script. -/
def Effect.isSetup : Effect → Bool
  | .loggerRemoveConsole => true
  | .loggerAddConsole _ _ => true
  | .i18nInit _ => true
  | .use _ => true
  | .call _ => true
  | .appSet _ _ => true
  | .appEngine _ _ => true
  | .mergeLocals => true
  | _ => false

/-! ## Lemmas on the effect trace -/

theorem usesOf_append (xs ys : List Effect) : usesOf (xs ++ ys) = usesOf xs ++ usesOf ys := by
  induction xs with
  | nil => rfl
  | cons x xs ih => cases x <;> simp [usesOf, ih]

theorem usesOf_map_use (ss : List Stage) : usesOf (ss.map Effect.use) = ss := by
  induction ss with
  | nil => rfl
  | cons s ss ih => simp [usesOf, ih]

theorem callsOf_append (xs ys : List Effect) :
    callsOf (xs ++ ys) = callsOf xs ++ callsOf ys := by
  induction xs with
  | nil => rfl
  | cons x xs ih => cases x <;> simp [callsOf, ih]

theorem usesOf_mountRoutes (t : List RouteEntry) :
    usesOf (mountRoutes t) = t.map (fun r => Stage.route r.mounted) := by
  induction t with
  | nil => rfl
  | cons r t ih =>
    cases r <;>
      simp [mountRoutes, usesOf, ih, RouteEntry.mounted, RouteEntry.typeofFunction,
        RouteEntry.returned, RouteEntry.self]

theorem callsOf_mountRoutes (t : List RouteEntry) :
    callsOf (mountRoutes t) = (t.filter RouteEntry.typeofFunction).map RouteEntry.self := by
  induction t with
  | nil => rfl
  | cons r t ih =>
    cases r <;>
      simp [mountRoutes, callsOf, ih, RouteEntry.typeofFunction, RouteEntry.self]

theorem mountedAsDescribed_of_values (units : List RouteUnit)
    (h : ∀ v, RouteUnit.middleware v ∈ units → v.typeofFunction = false) :
    MountedAsDescribed units := by
  induction units with
  | nil => exact ⟨rfl, rfl⟩
  | cons u us ih =>
    have hus := ih (fun v hv => h v (List.mem_cons_of_mem _ hv))
    unfold MountedAsDescribed at hus ⊢
    cases u with
    | middleware v =>
      have hv := h v (List.mem_cons_self _ _)
      cases v with
      | func s r => simp [RouteEntry.typeofFunction] at hv
      | other s =>
        simp [RouteUnit.entry, mountRoutes, usesOf, callsOf, RouteUnit.describedMount,
          RouteUnit.describedCall, RouteEntry.self, hus.1, hus.2]
    | factory s m =>
      simp [RouteUnit.entry, mountRoutes, usesOf, callsOf, RouteUnit.describedMount,
        RouteUnit.describedCall, hus.1, hus.2]

theorem mountRoutes_isSetup (t : List RouteEntry) :
    ∀ x ∈ mountRoutes t, x.isSetup = true := by
  induction t with
  | nil => intro x hx; simp [mountRoutes] at hx
  | cons r t ih =>
    intro x hx
    cases r <;> simp [mountRoutes] at hx <;> rcases hx with h | h
    · subst h; rfl
    · rcases h with h | h
      · subst h; rfl
      · exact ih x h
    · subst h; rfl
    · exact ih x h

theorem syncEffects_isSetup (env : Env) (t : List RouteEntry) :
    ∀ x ∈ syncEffects env t, x.isSetup = true := by
  intro x hx
  simp only [syncEffects, List.mem_append, List.mem_map] at hx
  rcases hx with (((((((h | h) | h) | h) | h) | h) | h) | h)
  · simp at h; rcases h with h | h | h <;> subst h <;> rfl
  · obtain ⟨s, _, rfl⟩ := h; rfl
  · obtain ⟨s, _, rfl⟩ := h; rfl
  · simp at h; rcases h with h | h | h <;> subst h <;> rfl
  · obtain ⟨s, _, rfl⟩ := h; rfl
  · exact mountRoutes_isSetup t x h
  · obtain ⟨s, _, rfl⟩ := h; rfl
  · simp at h; subst h; rfl

/-- The registered stages, segment by segment. -/
theorem registered_eq (env : Env) (t : List RouteEntry) :
    registered env t =
      pipelineHead ++ staticMounts ++ loggingStages
        ++ t.map (fun r => Stage.route r.mounted) ++ debugStages env := by
  simp only [registered, syncEffects, usesOf_append, usesOf_map_use, usesOf_mountRoutes]
  simp [usesOf]

theorem debugMode_iff (env : Env) : debugMode env = true ↔ env "NODE_ENV" ≠ some "production" := by
  unfold debugMode Env.read
  cases h : env "NODE_ENV" with
  | none => simp
  | some s => simp

/-! ## Lemmas on objects -/

theorem Obj.get_set (o : Obj) (k : String) (v : LocalVal) (key : String) :
    (o.set k v).get key = if k = key then some v else o.get key := by
  induction o with
  | nil => simp [Obj.set, Obj.get]
  | cons p rest ih =>
    obtain ⟨a, b⟩ := p
    by_cases hak : a = k
    · subst hak
      by_cases hk : a = key <;> simp [Obj.set, Obj.get, hk]
    · by_cases hk : a = key
      · subst hk
        have : ¬ k = a := fun h => hak h.symm
        simp [Obj.set, Obj.get, hak, this]
      · simp [Obj.set, Obj.get, hak, hk, ih]

theorem Obj.keys_set (o : Obj) (k : String) (v : LocalVal) :
    (o.set k v).map Prod.fst
      = if k ∈ o.map Prod.fst then o.map Prod.fst else o.map Prod.fst ++ [k] := by
  induction o with
  | nil => simp [Obj.set]
  | cons p rest ih =>
    obtain ⟨a, b⟩ := p
    by_cases hak : a = k
    · subst hak
      simp [Obj.set]
    · have hka : ¬ k = a := fun h => hak h.symm
      simp only [Obj.set, if_neg hak, List.map_cons, List.mem_cons, hka, false_or, ih]
      split <;> simp

theorem Obj.wellFormed_set (o : Obj) (k : String) (v : LocalVal) (h : o.WellFormed) :
    (o.set k v).WellFormed := by
  unfold Obj.WellFormed at *
  rw [Obj.keys_set]
  split
  · exact h
  · rename_i hk
    rw [List.nodup_append]
    refine ⟨h, by simp, ?_⟩
    intro a ha hb
    simp at hb
    subst hb
    exact hk ha

theorem Obj.wellFormed_assign (src target : Obj) (h : target.WellFormed) :
    (Obj.assign target src).WellFormed := by
  induction src generalizing target with
  | nil => exact h
  | cons p rest ih =>
    obtain ⟨a, b⟩ := p
    exact ih _ (Obj.wellFormed_set target a b h)

theorem Obj.get_none_of_not_mem (o : Obj) (key : String)
    (h : key ∉ o.map Prod.fst) : o.get key = none := by
  induction o with
  | nil => rfl
  | cons p rest ih =>
    obtain ⟨a, b⟩ := p
    simp only [List.map_cons, List.mem_cons, not_or] at h
    have ha : ¬ a = key := fun e => h.1 e.symm
    simp [Obj.get, ha, ih h.2]

theorem Obj.get_assign (src target : Obj) (h : src.WellFormed) (key : String) :
    (Obj.assign target src).get key
      = match src.get key with
        | some v => some v
        | none => target.get key := by
  induction src generalizing target with
  | nil => rfl
  | cons p rest ih =>
    obtain ⟨a, b⟩ := p
    have hn : a ∉ rest.map Prod.fst ∧ Obj.WellFormed rest := by
      simpa [Obj.WellFormed] using h
    have hrest := ih (target.set a b) hn.2
    simp only [Obj.assign, hrest, Obj.get_set]
    by_cases hak : a = key
    · subst hak
      simp [Obj.get, Obj.get_none_of_not_mem rest a hn.1]
    · simp only [Obj.get, if_neg hak]

/-! ## Lemmas on splitting -/

theorem jsSplit_head (sep : Char) (cs : List Char) :
    (jsSplit sep cs).headD [] = cs.takeWhile (fun c => c != sep) := by
  induction cs with
  | nil => rfl
  | cons c cs ih =>
    by_cases hc : c = sep
    · simp [jsSplit, hc]
    · have hne : (c != sep) = true := by simpa using hc
      cases hs : jsSplit sep cs with
      | nil =>
        rw [hs] at ih
        simp [jsSplit, hc, hs, List.takeWhile, hne, ← ih]
      | cons piece pieces =>
        rw [hs] at ih
        simp [jsSplit, hc, hs, List.takeWhile, hne, ← ih]

/-! ## Lemmas on cookies -/

theorem cookie_of_carries (req : Request) (name v : String) (h : req.Carries name v) :
    req.cookie name = some v := by
  obtain ⟨before, after, hc, hb⟩ := h
  have hfind : req.cookies.find? (fun c => c.1 == name) = some (name, v) := by
    rw [List.find?_eq_some]
    refine ⟨by simp, before, after, hc, ?_⟩
    intro a ha
    simpa using hb a ha
  simp [Request.cookie, hfind]

theorem cookie_of_lacks (req : Request) (name : String) (h : req.Lacks name) :
    req.cookie name = none := by
  have hfind : req.cookies.find? (fun c => c.1 == name) = none := by
    rw [List.find?_eq_none]
    intro c hc
    simpa using h c hc
  simp [Request.cookie, hfind]

/-! ## Lemmas on dispatch -/

theorem answeredBy_mem (w : World) (req : Request) (l : List Stage) (s : Stage)
    (h : answeredBy w req l = some s) : s ∈ l ∧ s.answers w req = true := by
  induction l with
  | nil => simp [answeredBy] at h
  | cons a l ih =>
    unfold answeredBy at h
    split at h
    · split at h
      · rename_i ha
        simp only [Option.some.injEq] at h
        subst h
        exact ⟨List.mem_cons_self _ _, ha⟩
      · exact ⟨List.mem_cons_of_mem _ (ih h).1, (ih h).2⟩
    · exact ⟨List.mem_cons_of_mem _ (ih h).1, (ih h).2⟩

theorem answeredBy_append_pass (w : World) (req : Request) (xs ys : List Stage)
    (h : ∀ s ∈ xs, s.mount.isPrefixOf req.path = true → s.answers w req = false) :
    answeredBy w req (xs ++ ys) = answeredBy w req ys := by
  induction xs with
  | nil => rfl
  | cons a xs ih =>
    have hxs := ih (fun s hs => h s (List.mem_cons_of_mem _ hs))
    have ha := h a (List.mem_cons_self _ _)
    simp only [List.cons_append, answeredBy]
    split
    · rename_i hm
      simp [ha hm, hxs]
    · exact hxs

theorem received_append_pass (w : World) (req : Request) (xs ys : List Stage)
    (h : ∀ s ∈ xs, s.mount.isPrefixOf req.path = true → s.answers w req = false) :
    received w req (xs ++ ys)
      = xs.filter (fun s => s.mount.isPrefixOf req.path) ++ received w req ys := by
  induction xs with
  | nil => rfl
  | cons a xs ih =>
    have hxs := ih (fun s hs => h s (List.mem_cons_of_mem _ hs))
    have ha := h a (List.mem_cons_self _ _)
    simp only [List.cons_append, received]
    split
    · rename_i hm
      simp [ha hm, hxs, List.filter_cons, hm]
    · rename_i hm
      simp [hxs, List.filter_cons, hm]

/-- The stages registered before the mount of `/public`. -/
theorem registered_split (env : Env) (t : List RouteEntry) :
    registered env t =
      (pipelineHead ++ [faviconStage, .static ["node_modules"] (root_directory ++ ["node_modules"])])
        ++ publicMount ::
          ([ .static ["public", "image"] (dist_directory ++ ["images"]),
             .static ["public", "images"] (dist_directory ++ ["images"]),
             .static ["public", "fonts"] (root_directory ++ ["node_modules", "bootstrap", "fonts"]) ]
            ++ pdfMount ::
              ([ .static ["robots.txt"] (dist_directory ++ ["robots.txt"]),
                 .static ["sitemap.xml"] (dist_directory ++ ["sitemap.xml"]) ]
                ++ loggingStages ++ t.map (fun r => Stage.route r.mounted) ++ debugStages env)) := by
  rw [registered_eq]
  simp [staticMounts, faviconStage, publicMount, pdfMount]

theorem collapse_routes (t : List RouteEntry) :
    collapse (StageKind.routeEntry :: t.map (fun r => (Stage.route r.mounted).kind))
      = [StageKind.routeEntry] := by
  induction t with
  | nil => rfl
  | cons r t ih =>
    simp only [List.map_cons, Stage.kind, collapse, if_true]
    exact ih

/-! ## Storage initialization gates the listener -/

/-- C1: when `db.init()` rejects with `e`, the script logs `e` at error level and
exits with status 1; `app.listen` is never called, `db.init` is called once and
nothing happens after the exit. -/
theorem init_rejected_exits (env : Env) (t : List RouteEntry) (config : Config)
    (e : Err) (l : ListenOutcome) :
    startup env t config (.rejected e) l
        = syncEffects env t ++ [Effect.dbInit, Effect.error e, Effect.exit 1]
      ∧ (∀ p, Effect.listen p ∉ startup env t config (.rejected e) l)
      ∧ (startup env t config (.rejected e) l).count Effect.dbInit = 1
      ∧ (startup env t config (.rejected e) l).getLast? = some (Effect.exit 1) := by
  have hs : startup env t config (.rejected e) l
      = syncEffects env t ++ [Effect.dbInit, Effect.error e, Effect.exit 1] := by
    simp [startup, afterInit, catchHandler]
  have hsetup := syncEffects_isSetup env t
  refine ⟨hs, ?_, ?_, ?_⟩
  · intro p hp
    rw [hs, List.mem_append] at hp
    rcases hp with hp | hp
    · have := hsetup _ hp
      simp [Effect.isSetup] at this
    · simp at hp
  · rw [hs, List.count_append]
    have h0 : (syncEffects env t).count Effect.dbInit = 0 := by
      rw [List.count_eq_zero]
      intro hp
      have := hsetup _ hp
      simp [Effect.isSetup] at this
    rw [h0]
    simp [List.count_cons]
  · rw [hs]
    simp

/-- C2: the port handed to `app.listen` is `LOCA_NODEJS_PORT` when that is set
and not empty, else `PORT` when that is set and not empty, else 8082; once
`db.init()` resolves, `app.listen` is called with exactly this port. -/
theorem listen_port (env : Env) :
    (∀ s, env "LOCA_NODEJS_PORT" = some s → s ≠ "" → http_port env = .str s)
      ∧ (∀ s, (env "LOCA_NODEJS_PORT" = none ∨ env "LOCA_NODEJS_PORT" = some "") →
          env "PORT" = some s → s ≠ "" → http_port env = .str s)
      ∧ ((env "LOCA_NODEJS_PORT" = none ∨ env "LOCA_NODEJS_PORT" = some "") →
          (env "PORT" = none ∨ env "PORT" = some "") → http_port env = .num 8082)
      ∧ (∀ t config l p, Effect.listen p ∈ startup env t config .resolved l ↔
          p = http_port env) := by
  refine ⟨?_, ?_, ?_, ?_⟩
  · intro s h hs
    simp [http_port, jsOr, Env.read, h, JsVal.truthy, hs]
  · intro s h1 h2 hs
    rcases h1 with h1 | h1 <;>
      simp [http_port, jsOr, Env.read, h1, h2, JsVal.truthy, hs]
  · intro h1 h2
    rcases h1 with h1 | h1 <;> rcases h2 with h2 | h2 <;>
      simp [http_port, jsOr, Env.read, h1, h2, JsVal.truthy]
  · intro t config l p
    have hsetup := syncEffects_isSetup env t
    have hsync : Effect.listen p ∉ syncEffects env t := by
      intro hp
      have := hsetup _ hp
      simp [Effect.isSetup] at this
    cases l <;>
      simp [startup, afterInit, thenHandler, catchHandler, listenCallback, hsync]
    split <;> simp

/-- C2 at an environment that sets neither variable: the listener binds 8082. -/
theorem listen_port_witness :
    http_port (fun _ => none) = .num 8082 :=
  (listen_port (fun _ => none)).2.2.1 (Or.inl rfl) (Or.inl rfl)

/-! ## Debug-only parts -/

/-- C3: the error handler is registered, and the live-reload service on port 9091
is started by the listen callback, exactly when `NODE_ENV` is not `production`. -/
theorem debug_only_parts (env : Env) (t : List RouteEntry) (config : Config) :
    (Stage.errorHandler ∈ registered env t ↔ env "NODE_ENV" ≠ some "production")
      ∧ (∀ w p, Effect.liveReload w p ∈ startup env t config .resolved .listening ↔
          (env "NODE_ENV" ≠ some "production" ∧ w = ["dist"] ∧ p = 9091))
      ∧ (∀ w p db l, env "NODE_ENV" = some "production" →
          Effect.liveReload w p ∉ startup env t config db l) := by
  have hsetup := syncEffects_isSetup env t
  have hsync : ∀ w p, Effect.liveReload w p ∉ syncEffects env t := by
    intro w p hp
    have := hsetup _ hp
    simp [Effect.isSetup] at this
  have hd := debugMode_iff env
  refine ⟨?_, ?_, ?_⟩
  · rw [registered_eq, ← hd]
    simp only [List.mem_append, List.mem_map]
    constructor
    · rintro ((((h | h) | h) | h) | h)
      · simp [pipelineHead] at h
      · simp [staticMounts] at h
      · simp [loggingStages] at h
      · obtain ⟨r, _, hr⟩ := h
        cases hr
      · unfold debugStages at h
        split at h
        · assumption
        · simp at h
    · intro h
      right
      simp [debugStages, h]
  · intro w p
    rw [← hd]
    cases hdm : debugMode env <;>
      simp [startup, afterInit, thenHandler, listenCallback, hsync, hdm]
  · intro w p db l hprod
    have hdm : debugMode env = false := by
      cases h : debugMode env
      · rfl
      · exact absurd hprod (hd.mp h)
    cases db <;> cases l <;>
      simp [startup, afterInit, thenHandler, catchHandler, listenCallback, hsync, hdm]

/-- C3 at `NODE_ENV=production`: no live-reload service is started. -/
theorem debug_only_parts_witness :
    Effect.liveReload ["dist"] 9091 ∉
      startup (fun k => if k = "NODE_ENV" then some "production" else none) []
        { demomode := false, json := "" } .resolved .listening :=
  (debug_only_parts (fun k => if k = "NODE_ENV" then some "production" else none) []
    { demomode := false, json := "" }).2.2 ["dist"] 9091 .resolved .listening (by simp)

/-! ## Registration order -/

/-- C4, as stated, fails: with `NODE_ENV` unset the registered sequence does not
stop at the route-table entries, the debug error handler comes after them. -/
theorem described_order_fails :
    ¬ FollowsDescribedOrder (fun _ => none) [.other "router"]
      ∧ (registered (fun _ => none) [.other "router"]).getLast? = some Stage.errorHandler := by
  constructor
  · unfold FollowsDescribedOrder
    rw [registered_eq]
    decide
  · rw [registered_eq]
    decide

/-- C4, amended: the registered stages are, in this order, body parsing, method
override, the session store, the authentication context, the localization
handler, the formatting middleware, the favicon and the eight static mounts,
access logging, error logging, the route-table entries, and then the debug
error handler when `NODE_ENV` is not `production`; so the kinds never step back
in the described order, the session store comes before the authentication
context, the localization handler before the formatting middleware, and every
static mount before every route-table entry. -/
theorem registration_order (env : Env) (t : List RouteEntry) :
    registered env t =
        [ .bodyParserUrlencoded true, .bodyParserJson, .methodOverride,
          .session sessionOptions, .passportInitialize, .passportSession,
          .i18nHandle i18nOptions, .intlInjection ]
        ++ staticMounts
        ++ [.accessLogger, .errorLogger]
        ++ t.map (fun r => Stage.route r.mounted)
        ++ (if env "NODE_ENV" ≠ some "production" then [.errorHandler] else [])
      ∧ (registered env t).Pairwise (fun a b => a.kind.rank ≤ b.kind.rank)
      ∧ (registered env t).Pairwise
          (fun a b => ¬ (a.kind = .authContext ∧ b.kind = .sessionStore))
      ∧ (registered env t).Pairwise
          (fun a b => ¬ (a.kind = .formatting ∧ b.kind = .localization))
      ∧ (registered env t).Pairwise
          (fun a b => ¬ (a.kind = .routeEntry ∧ b.kind = .staticFiles))
      ∧ (env "NODE_ENV" = some "production" → FollowsDescribedOrder env t) := by
  have hrank : (registered env t).Pairwise (fun a b => a.kind.rank ≤ b.kind.rank) := by
    rw [registered_eq]
    have hfixed : (pipelineHead ++ staticMounts ++ loggingStages).Pairwise
        (fun a b => a.kind.rank ≤ b.kind.rank) := by decide
    have hfixed9 : ∀ a ∈ pipelineHead ++ staticMounts ++ loggingStages,
        a.kind.rank ≤ 9 := by decide
    have hroute : ∀ a ∈ t.map (fun r => Stage.route r.mounted), a.kind.rank = 9 := by
      intro a ha
      obtain ⟨r, _, rfl⟩ := List.mem_map.mp ha
      rfl
    have hdebug : ∀ b ∈ debugStages env, b.kind.rank = 10 := by
      intro b hb
      unfold debugStages at hb
      split at hb
      · simp at hb; subst hb; rfl
      · simp at hb
    rw [List.pairwise_append]
    refine ⟨?_, ?_, ?_⟩
    · rw [List.pairwise_append]
      refine ⟨hfixed, ?_, ?_⟩
      · rw [List.pairwise_iff_forall_sublist]
        intro a b hab
        have ha := hroute a (hab.subset (by simp))
        have hb := hroute b (hab.subset (by simp))
        omega
      · intro a ha b hb
        have := hfixed9 a ha
        have := hroute b hb
        omega
    · unfold debugStages
      split <;> simp
    · intro a ha b hb
      have hb10 := hdebug b hb
      rcases List.mem_append.mp ha with ha | ha
      · have := hfixed9 a ha
        omega
      · have := hroute a ha
        omega
  refine ⟨?_, hrank, ?_, ?_, ?_, ?_⟩
  rotate_right
  · intro hprod
    have hdm : debugStages env = [] := by
      unfold debugStages
      rw [if_neg]
      intro h
      exact (debugMode_iff env).mp h hprod
    unfold FollowsDescribedOrder
    rw [registered_eq, hdm]
    cases t with
    | nil => decide
    | cons r t =>
      simp only [pipelineHead, staticMounts, loggingStages, List.append_nil, List.map_append,
        List.map_cons, List.map_nil, List.cons_append, List.nil_append, Stage.kind, collapse,
        describedOrder, List.isEmpty_cons, if_true, if_false, reduceCtorEq, List.map_map,
        Function.comp_def, Bool.false_eq_true]
      have hr := collapse_routes t
      have hmap : List.map Stage.kind ((List.map (fun r => Stage.route r.mounted) t).append [])
          = List.map (fun r => (Stage.route r.mounted).kind) t := by
        simp [Function.comp_def]
      rw [hmap, hr]
  · rw [registered_eq]
    have hd : debugStages env
        = if env "NODE_ENV" ≠ some "production" then [.errorHandler] else [] := by
      unfold debugStages
      by_cases h : env "NODE_ENV" ≠ some "production"
      · rw [if_pos h, if_pos ((debugMode_iff env).mpr h)]
      · rw [if_neg h, if_neg (fun hm => h ((debugMode_iff env).mp hm))]
    rw [hd]
    rfl
  · refine hrank.imp ?_
    intro a b hab h
    rw [h.1, h.2] at hab
    simp [StageKind.rank] at hab
  · refine hrank.imp ?_
    intro a b hab h
    rw [h.1, h.2] at hab
    simp [StageKind.rank] at hab
  · refine hrank.imp ?_
    intro a b hab h
    rw [h.1, h.2] at hab
    simp [StageKind.rank] at hab

/-- C4, amended, at `NODE_ENV=production` with one route: the described order is
followed exactly. -/
theorem registration_order_witness :
    FollowsDescribedOrder (fun k => if k = "NODE_ENV" then some "production" else none)
      [.other "router"] :=
  (registration_order (fun k => if k = "NODE_ENV" then some "production" else none)
    [.other "router"]).2.2.2.2.2 (by simp)

/-! ## Session cookie -/

/-- C6: whatever the environment and the route table, the one session store
that is registered has the cookie max age `5 * 60 * 1000 = 300000` ms. -/
theorem session_max_age (env : Env) (t : List RouteEntry) :
    (∀ o, Stage.session o ∈ registered env t ↔ o = sessionOptions)
      ∧ sessionOptions.cookieMaxAge = 5 * 60 * 1000
      ∧ sessionOptions.cookieMaxAge = 300000 := by
  refine ⟨?_, rfl, rfl⟩
  intro o
  rw [registered_eq]
  simp only [List.mem_append, List.mem_map]
  constructor
  · rintro ((((h | h) | h) | h) | h)
    · simpa [pipelineHead] using h
    · simp [staticMounts] at h
    · simp [loggingStages] at h
    · obtain ⟨r, _, hr⟩ := h
      cases hr
    · unfold debugStages at h
      split at h <;> simp at h
  · rintro rfl
    simp [pipelineHead]

/-! ## Route table -/

/-- C8, as stated, fails: an entry that is a middleware function is not mounted
unchanged; line 128 calls it like a factory and mounts what the call returns. -/
theorem middleware_function_called :
    ¬ MountedAsDescribed [.middleware (.func "middleware" "undefined")]
      ∧ usesOf (mountRoutes
          [(RouteUnit.middleware (.func "middleware" "undefined")).entry])
        = [Stage.route "undefined"]
      ∧ callsOf (mountRoutes
          [(RouteUnit.middleware (.func "middleware" "undefined")).entry])
        = ["middleware"] := by
  refine ⟨by decide, by decide, by decide⟩

/-- C8, amended: a route table of length `n` gives `n` calls of `app.use`, in
list order: an entry for which `typeof` is `function` (a factory, and also a
middleware that is itself a function) is called once, with no argument, and
what it returns is mounted; any other entry is mounted itself. So a table whose
middleware entries are not functions is mounted as described. -/
theorem route_table_mounted (env : Env) (t : List RouteEntry) :
    usesOf (mountRoutes t) = t.map (fun r => Stage.route r.mounted)
      ∧ (usesOf (mountRoutes t)).length = t.length
      ∧ callsOf (mountRoutes t) = (t.filter RouteEntry.typeofFunction).map RouteEntry.self
      ∧ callsOf (syncEffects env t) = callsOf (mountRoutes t)
      ∧ (registered env t).filter Stage.isRoute = t.map (fun r => Stage.route r.mounted)
      ∧ (∀ self returns, (RouteEntry.func self returns).mounted = returns)
      ∧ (∀ self, (RouteEntry.other self).mounted = self)
      ∧ (∀ units : List RouteUnit, t = units.map RouteUnit.entry →
          (∀ v, RouteUnit.middleware v ∈ units → v.typeofFunction = false) →
          MountedAsDescribed units) := by
  refine ⟨usesOf_mountRoutes t, ?_, callsOf_mountRoutes t, ?_, ?_, ?_, ?_, ?_⟩
  rotate_right
  · intro units _ h
    exact mountedAsDescribed_of_values units h
  · rw [usesOf_mountRoutes, List.length_map]
  · have hmap : ∀ ss : List Stage, callsOf (ss.map Effect.use) = [] := by
      intro ss
      induction ss with
      | nil => rfl
      | cons a ss ih => simpa [callsOf] using ih
    simp [syncEffects, callsOf_append, hmap, callsOf]
  · rw [registered_eq]
    have hroutes : ∀ l : List RouteEntry,
        (l.map (fun r => Stage.route r.mounted)).filter Stage.isRoute
          = l.map (fun r => Stage.route r.mounted) := by
      intro l
      rw [List.filter_eq_self]
      intro a ha
      obtain ⟨r, _, rfl⟩ := List.mem_map.mp ha
      rfl
    have hfixed : (pipelineHead ++ staticMounts ++ loggingStages).filter Stage.isRoute = [] := by
      decide
    have hdebug : (debugStages env).filter Stage.isRoute = [] := by
      unfold debugStages
      split <;> rfl
    simp only [List.filter_append, hroutes, hfixed, hdebug, List.nil_append, List.append_nil]
  · intro self returns
    rfl
  · intro self
    rfl

/-- C8, amended, at a table of one middleware that is not a function and one
factory: it is mounted as described. -/
theorem route_table_mounted_witness :
    MountedAsDescribed [.middleware (.other "handlers"), .factory "pages" "router"] :=
  (route_table_mounted (fun _ => none) [.other "handlers", .func "pages" "router"]).2.2.2.2.2.2.2
    [.middleware (.other "handlers"), .factory "pages" "router"] rfl
    (by intro v hv; simp at hv; subst hv; rfl)

/-! ## Template helpers -/

/-- C9: after `app.locals = { ...app.locals, ...ejsHelpers }`, every key of
`ejsHelpers` maps to the helper, every other key keeps the value it had, and
no key is there twice. -/
theorem locals_merged (locals ejsHelpers : Obj)
    (hl : locals.WellFormed) (hh : ejsHelpers.WellFormed) (key : String) :
    (mergedLocals locals ejsHelpers).get key
        = (match ejsHelpers.get key with
          | some v => some v
          | none => locals.get key)
      ∧ (mergedLocals locals ejsHelpers).WellFormed := by
  constructor
  · unfold mergedLocals Obj.spread
    rw [Obj.get_assign ejsHelpers _ hh, Obj.get_assign locals _ hl]
    cases ejsHelpers.get key with
    | some v => rfl
    | none =>
      cases locals.get key with
      | some v => rfl
      | none => rfl
  · unfold mergedLocals Obj.spread
    apply Obj.wellFormed_assign
    apply Obj.wellFormed_assign
    simp [Obj.WellFormed]

/-- C9 on a name collision: the helper wins. -/
theorem locals_merged_witness :
    (mergedLocals [("settings", .other "express"), ("formatDate", .other "previous")]
        [("formatDate", .other "helper"), ("t", .other "helper")]).get "formatDate"
      = some (.other "helper") :=
  (locals_merged [("settings", .other "express"), ("formatDate", .other "previous")]
    [("formatDate", .other "helper"), ("t", .other "helper")]
    (by decide) (by decide) "formatDate").1

/-! ## Formatting middleware -/

/-- C10, as stated, fails: for a language tag the number formatter rejects the
middleware throws and passes nothing on, and for a key `moment` has no locale
for the date locale stays what an earlier request made it. -/
theorem formatting_not_for_every_language :
    ¬ InjectsFor stockLibs { locals := [], dateLocale := "en" } "fr_FR"
      ∧ intlInjection stockLibs { locals := [], dateLocale := "en" } "fr_FR"
          = ({ locals := [], dateLocale := "en" }, [.threw "RangeError"])
      ∧ ¬ InjectsFor stockLibs { locals := [], dateLocale := "fr" } "zh"
      ∧ (intlInjection stockLibs { locals := [], dateLocale := "fr" } "zh").1.dateLocale = "fr"
      ∧ (intlInjection stockLibs { locals := [], dateLocale := "en" } "zh").1.dateLocale = "en" := by
  refine ⟨by decide, by decide, by decide, by decide, by decide⟩

/-- C10, amended: for a request with a language `L` the number formatter
accepts, the middleware stores in `app.locals.Intl` the two formatters built
for `L` (at most 2 significant digits; currency USD), whatever the state was
before, calls `moment.locale` with the part of `L` before its first `-` (with
`L` when it has none), calls `next` once, and leaves every other key of
`app.locals`; the date locale becomes the locale `moment` has for that key,
whatever it was before, and stays as it was when `moment` has none. For a
language the number formatter rejects the middleware throws, writes nothing
and calls neither `moment.locale` nor `next`. -/
theorem formatting_injected (libs : LocaleLibs) (st st' : AppState) (L : String) :
    (libs.numberFormatAccepts L = true →
        (intlInjection libs st L).1.locals.get "Intl" = some (intlFor L)
          ∧ (intlInjection libs st L).1.locals.get "Intl"
              = (intlInjection libs st' L).1.locals.get "Intl"
          ∧ (intlInjection libs st L).2 = (intlInjection libs st' L).2
          ∧ (intlInjection libs st L).2
              = [.momentLocale (String.mk (L.data.takeWhile (fun c => c != '-'))), .next]
          ∧ ('-' ∉ L.data → (intlInjection libs st L).2 = [.momentLocale L, .next])
          ∧ (intlInjection libs st L).2.count .next = 1
          ∧ (∀ key, key ≠ "Intl" →
              (intlInjection libs st L).1.locals.get key = st.locals.get key)
          ∧ (∀ loaded,
              libs.momentResolves (String.mk (L.data.takeWhile (fun c => c != '-')))
                = some loaded →
              (intlInjection libs st L).1.dateLocale = loaded
                ∧ (intlInjection libs st' L).1.dateLocale = loaded)
          ∧ (libs.momentResolves (String.mk (L.data.takeWhile (fun c => c != '-'))) = none →
              (intlInjection libs st L).1.dateLocale = st.dateLocale))
      ∧ (libs.numberFormatAccepts L = false →
          intlInjection libs st L = (st, [.threw "RangeError"]))
      ∧ intlFor L = .intl
          { locale := L, style := none, currency := none,
            maximumSignificantDigits := some 2 }
          { locale := L, style := some "currency", currency := some "USD",
            maximumSignificantDigits := none } := by
  have hsplit : splitedLanguage0 L = String.mk (L.data.takeWhile (fun c => c != '-')) := by
    unfold splitedLanguage0
    rw [jsSplit_head]
  refine ⟨?_, ?_, rfl⟩
  · intro hacc
    refine ⟨?_, ?_, ?_, ?_, ?_, ?_, ?_, ?_, ?_⟩
    · simp [intlInjection, hacc, Obj.get_set]
    · simp [intlInjection, hacc, Obj.get_set]
    · simp [intlInjection, hacc]
    · simp [intlInjection, hacc, hsplit]
    · intro hdash
      have hall : L.data.takeWhile (fun c => c != '-') = L.data := by
        rw [List.takeWhile_eq_self_iff]
        intro c hc
        have : c ≠ '-' := fun h => hdash (h ▸ hc)
        simpa using this
      simp [intlInjection, hacc, hsplit, hall]
    · simp [intlInjection, hacc, List.count_cons]
    · intro key hkey
      have : ¬ "Intl" = key := fun h => hkey h.symm
      simp [intlInjection, hacc, Obj.get_set, this]
    · intro loaded hl
      simp [intlInjection, hacc, hsplit, momentLocale, hl]
    · intro hl
      simp [intlInjection, hacc, hsplit, momentLocale, hl]
  · intro hrej
    simp [intlInjection, hrej]

/-- C10, amended, at `fr`, which is accepted and has no `-`: `moment.locale` is
called with `fr`, the date locale becomes `fr` after a request that left it
`en`, and a helper stored under another key is left alone; and at `fr_FR`,
which is rejected: the middleware throws. -/
theorem formatting_injected_witness :
    (intlInjection stockLibs { locals := [("t", .other "helper")], dateLocale := "en" } "fr").2
        = [.momentLocale "fr", .next]
      ∧ (intlInjection stockLibs
          { locals := [("t", .other "helper")], dateLocale := "en" } "fr").1.dateLocale = "fr"
      ∧ (intlInjection stockLibs
          { locals := [("t", .other "helper")], dateLocale := "en" } "fr").1.locals.get "t"
          = Obj.get [("t", .other "helper")] "t"
      ∧ intlInjection stockLibs { locals := [], dateLocale := "en" } "fr_FR"
          = ({ locals := [], dateLocale := "en" }, [.threw "RangeError"]) :=
  ⟨((formatting_injected stockLibs { locals := [("t", .other "helper")], dateLocale := "en" }
      { locals := [], dateLocale := "de" } "fr").1 (by decide)).2.2.2.2.1 (by decide),
   (((formatting_injected stockLibs { locals := [("t", .other "helper")], dateLocale := "en" }
      { locals := [], dateLocale := "de" } "fr").1 (by decide)).2.2.2.2.2.2.2.1
        "fr" (by decide)).1,
   ((formatting_injected stockLibs { locals := [("t", .other "helper")], dateLocale := "en" }
      { locals := [], dateLocale := "de" } "fr").1 (by decide)).2.2.2.2.2.2.1 "t" (by decide),
   (formatting_injected stockLibs { locals := [], dateLocale := "en" }
      { locals := [], dateLocale := "en" } "fr_FR").2.1 (by decide)⟩

/-! ## Locale detection -/

/-- C7, as stated, fails: a request whose cookie `locaI18next` is present and
empty, sent with `Accept-Language: fr`, gets the language `fr` of the header and
not the value of the cookie. -/
theorem empty_cookie_passed_over :
    Request.Carries
        { method := "GET", path := [], cookies := [("locaI18next", "")],
          acceptLanguage := ["fr"] } "locaI18next" ""
      ∧ describedLanguage
          { method := "GET", path := [], cookies := [("locaI18next", "")],
            acceptLanguage := ["fr"] } = ""
      ∧ (i18nHandle i18nOptions
          { method := "GET", path := [], cookies := [("locaI18next", "")],
            acceptLanguage := ["fr"] }).1 = "fr"
      ∧ (i18nHandle i18nOptions
          { method := "GET", path := [], cookies := [("locaI18next", "")],
            acceptLanguage := ["fr"] }).1
        ≠ describedLanguage
          { method := "GET", path := [], cookies := [("locaI18next", "")],
            acceptLanguage := ["fr"] } := by
  refine ⟨⟨[], [], rfl, by simp⟩, by decide, by decide, by decide⟩

/-- C7, amended: with the options of the script, the language of a request is
the value of the first cookie `locaI18next` it carries when that value is not
empty; else (no such cookie, or an empty one) the preferred language of
`Accept-Language`; else `en`; the response sets the cookie `locaI18next` to
that language, and the stage doing so is registered with these options. -/
theorem locale_detected (env : Env) (t : List RouteEntry) (req : Request) :
    (∀ v, req.Carries "locaI18next" v → v ≠ "" → (i18nHandle i18nOptions req).1 = v)
      ∧ (∀ lng rest, (req.Lacks "locaI18next" ∨ req.Carries "locaI18next" "") →
          req.acceptLanguage = lng :: rest → lng ≠ "" →
          (i18nHandle i18nOptions req).1 = lng)
      ∧ ((req.Lacks "locaI18next" ∨ req.Carries "locaI18next" "") →
          req.acceptLanguage = [] → (i18nHandle i18nOptions req).1 = "en")
      ∧ (i18nHandle i18nOptions req).2
          = [{ name := "locaI18next", value := (i18nHandle i18nOptions req).1,
               domain := "loca" }]
      ∧ (∀ o, Stage.i18nHandle o ∈ registered env t ↔ o = i18nOptions) := by
  have hskip : (req.Lacks "locaI18next" ∨ req.Carries "locaI18next" "") →
      (req.cookie "locaI18next" = none ∨ req.cookie "locaI18next" = some "") := by
    rintro (h | h)
    · exact Or.inl (cookie_of_lacks req _ h)
    · exact Or.inr (cookie_of_carries req _ _ h)
  refine ⟨?_, ?_, ?_, ?_, ?_⟩
  · intro v hv hne
    have hc := cookie_of_carries req _ _ hv
    simp [i18nHandle, detectLanguage, detections, i18nOptions, lookupLanguage, hc, hne]
  · intro lng rest hc ha hne
    rcases hskip hc with hc | hc <;>
      simp [i18nHandle, detectLanguage, detections, i18nOptions, lookupLanguage, hc, ha, hne]
  · intro hc ha
    rcases hskip hc with hc | hc <;>
      simp [i18nHandle, detectLanguage, detections, i18nOptions, lookupLanguage, hc, ha]
  · simp [i18nHandle, cacheUserLanguage, i18nOptions]
  · intro o
    rw [registered_eq]
    simp only [List.mem_append, List.mem_map]
    constructor
    · rintro ((((h | h) | h) | h) | h)
      · simpa [pipelineHead] using h
      · simp [staticMounts] at h
      · simp [loggingStages] at h
      · obtain ⟨r, _, hr⟩ := h
        cases hr
      · unfold debugStages at h
        split at h <;> simp at h
    · rintro rfl
      simp [pipelineHead]

/-- C7, amended, at a request that carries the cookie `locaI18next=de` after a
session cookie, sent with `Accept-Language: fr`: the language is `de`; and at a
request without cookies and with `Accept-Language: fr`: the language is `fr`
and the response carries `Set-Cookie` for `locaI18next=fr`. -/
theorem locale_detected_witness :
    (i18nHandle i18nOptions
        { method := "GET", path := [],
          cookies := [("connect.sid", "s1"), ("locaI18next", "de")],
          acceptLanguage := ["fr"] }).1 = "de"
      ∧ (i18nHandle i18nOptions
          { method := "GET", path := [], cookies := [], acceptLanguage := ["fr"] }).1 = "fr"
      ∧ (i18nHandle i18nOptions
          { method := "GET", path := [], cookies := [], acceptLanguage := ["fr"] }).2
        = [{ name := "locaI18next",
             value := (i18nHandle i18nOptions
               { method := "GET", path := [], cookies := [], acceptLanguage := ["fr"] }).1,
             domain := "loca" }] :=
  ⟨(locale_detected (fun _ => none) []
      { method := "GET", path := [],
        cookies := [("connect.sid", "s1"), ("locaI18next", "de")],
        acceptLanguage := ["fr"] }).1
      "de" ⟨[("connect.sid", "s1")], [], rfl, by simp⟩ (by decide),
   (locale_detected (fun _ => none) []
      { method := "GET", path := [], cookies := [], acceptLanguage := ["fr"] }).2.1
      "fr" [] (Or.inl (by simp [Request.Lacks])) rfl (by decide),
   (locale_detected (fun _ => none) []
      { method := "GET", path := [], cookies := [], acceptLanguage := ["fr"] }).2.2.2.1⟩

/-! ## Static mount precedence -/

/-- C5, as stated, fails: when the file exists the request is answered by the
mount of `/public`, which is registered first, and when it does not exist the
request goes on to the route table. -/
theorem pdf_mount_precedence_fails :
    ¬ AnsweredByPdfMount { servable := fun _ => true, ends := fun _ _ => false }
        (fun _ => none) [.other "router"]
        { method := "GET", path := ["public", "pdf", "x.pdf"], cookies := [],
          acceptLanguage := [] }
      ∧ answeredBy { servable := fun _ => true, ends := fun _ _ => false }
          { method := "GET", path := ["public", "pdf", "x.pdf"], cookies := [],
            acceptLanguage := [] }
          (registered (fun _ => none) [.other "router"]) = some publicMount
      ∧ ¬ AnsweredByPdfMount { servable := fun _ => false, ends := fun _ _ => false }
          (fun _ => none) [.other "router"]
          { method := "GET", path := ["public", "pdf", "x.pdf"], cookies := [],
            acceptLanguage := [] }
      ∧ Stage.route "router" ∈
          received { servable := fun _ => false, ends := fun _ _ => false }
            { method := "GET", path := ["public", "pdf", "x.pdf"], cookies := [],
              acceptLanguage := [] }
            (registered (fun _ => none) [.other "router"]) := by
  refine ⟨?_, ?_, ?_, ?_⟩
  · unfold AnsweredByPdfMount
    rw [registered_eq]
    decide
  · rw [registered_eq]
    decide
  · unfold AnsweredByPdfMount
    rw [registered_eq]
    decide
  · rw [registered_eq]
    decide

/-- C5, amended: take a request for `/public/pdf/<rest>` that the stages before
the static mounts pass on. The mount of `/public` and the mount of
`/public/pdf` resolve it to the same file `dist/pdf/<rest>`; when that file can
be served and the method is `GET` or `HEAD`, the request is answered by the
mount of `/public` and no route-table entry receives it; the mount of
`/public/pdf` never answers; and when the file cannot be served and the two
logging stages pass the request on, the first route-table entry receives it. -/
theorem pdf_request_served (w : World) (env : Env) (t : List RouteEntry)
    (req : Request) (rest : Path)
    (hpath : req.path = "public" :: "pdf" :: rest)
    (hhead : ∀ s ∈ pipelineHead, w.ends s req = false)
    (hfav : w.ends faviconStage req = false) :
    publicMount.answers w req = pdfMount.answers w req
      ∧ (pdfMount.answers w req
          = ((req.method == "GET" || req.method == "HEAD")
              && w.servable (dist_directory ++ ["pdf"] ++ rest)))
      ∧ (pdfMount.answers w req = true →
          answeredBy w req (registered env t) = some publicMount
            ∧ ∀ s ∈ received w req (registered env t), s.isRoute = false)
      ∧ answeredBy w req (registered env t) ≠ some pdfMount
      ∧ (pdfMount.answers w req = false → w.ends .accessLogger req = false →
          w.ends .errorLogger req = false →
          ∀ r t', t = r :: t' →
            Stage.route r.mounted ∈ received w req (registered env t)) := by
  have hsame : publicMount.answers w req = pdfMount.answers w req := by
    simp [publicMount, pdfMount, Stage.answers, hpath, dist_directory]
  have hpdf : pdfMount.answers w req
      = ((req.method == "GET" || req.method == "HEAD")
          && w.servable (dist_directory ++ ["pdf"] ++ rest)) := by
    simp [pdfMount, Stage.answers, hpath, dist_directory]
  have hbefore : ∀ s ∈ pipelineHead
      ++ [faviconStage, .static ["node_modules"] (root_directory ++ ["node_modules"])],
      s.mount.isPrefixOf req.path = true → s.answers w req = false := by
    intro s hs hm
    rcases List.mem_append.mp hs with hs | hs
    · have hends := hhead s hs
      simp only [pipelineHead, List.mem_cons, List.mem_singleton, List.not_mem_nil,
        or_false] at hs
      rcases hs with h | h | h | h | h | h | h | h <;> subst h <;> exact hends
    · simp only [List.mem_cons, List.mem_singleton, List.not_mem_nil, or_false] at hs
      rcases hs with h | h
      · subst h
        exact hfav
      · subst h
        simp [Stage.mount, hpath] at hm
  have hpubm : publicMount.mount.isPrefixOf req.path = true := by
    simp [publicMount, Stage.mount, hpath]
  have hserved : pdfMount.answers w req = true →
      answeredBy w req (registered env t) = some publicMount
        ∧ ∀ s ∈ received w req (registered env t), s.isRoute = false := by
    intro hans
    have hpub : publicMount.answers w req = true := hsame ▸ hans
    rw [registered_split, answeredBy_append_pass w req _ _ hbefore,
      received_append_pass w req _ _ hbefore]
    constructor
    · simp [answeredBy, hpubm, hpub]
    · intro s hs
      simp only [received, hpubm, hpub, if_true, List.mem_append, List.mem_filter,
        List.mem_singleton] at hs
      rcases hs with ⟨hs, _⟩ | hs
      · rcases hs with hs | hs
        · simp only [pipelineHead, List.mem_cons, List.mem_singleton, List.not_mem_nil,
            or_false] at hs
          rcases hs with h | h | h | h | h | h | h | h <;> subst h <;> rfl
        · simp only [List.mem_cons, List.mem_singleton, List.not_mem_nil, or_false] at hs
          rcases hs with h | h <;> subst h <;> rfl
      · subst hs
        rfl
  refine ⟨hsame, hpdf, hserved, ?_, ?_⟩
  · intro h
    have hans := (answeredBy_mem w req _ _ h).2
    have := (hserved hans).1
    rw [h] at this
    simp [pdfMount, publicMount] at this
  · intro hans hacc herr r t' ht
    subst ht
    have hpub : publicMount.answers w req = false := hsame ▸ hans
    rw [registered_split, received_append_pass w req _ _ hbefore]
    apply List.mem_append_right
    have hpdf' : Stage.answers w req
        (Stage.static ["public", "pdf"] (dist_directory ++ ["pdf"])) = false := hans
    have hpub' : Stage.answers w req (Stage.static ["public"] dist_directory) = false := hpub
    have hacc' : Stage.answers w req Stage.accessLogger = false := hacc
    have herr' : Stage.answers w req Stage.errorLogger = false := herr
    simp only [received, publicMount, pdfMount, Stage.mount, hpath, hpub', hpdf',
      loggingStages, hacc', herr', List.cons_append, List.nil_append, List.map_cons]
    simp only [List.isPrefixOf, beq_self_eq_true, Bool.and_self, Bool.true_and,
      Bool.false_eq_true, if_true, if_false, String.reduceBEq, Bool.false_and,
      List.mem_cons, true_or, or_true]
    split <;> simp

/-- C5, amended, at `GET /public/pdf/x.pdf` with the file present: the mount of
`/public` answers and no route-table entry receives the request. -/
theorem pdf_request_served_witness :
    answeredBy { servable := fun _ => true, ends := fun _ _ => false }
        { method := "GET", path := ["public", "pdf", "x.pdf"], cookies := [],
          acceptLanguage := [] }
        (registered (fun _ => none) [.other "router"]) = some publicMount
      ∧ ∀ s ∈ received { servable := fun _ => true, ends := fun _ _ => false }
          { method := "GET", path := ["public", "pdf", "x.pdf"], cookies := [],
            acceptLanguage := [] }
          (registered (fun _ => none) [.other "router"]), s.isRoute = false :=
  (pdf_request_served { servable := fun _ => true, ends := fun _ _ => false }
    (fun _ => none) [.other "router"]
    { method := "GET", path := ["public", "pdf", "x.pdf"], cookies := [],
      acceptLanguage := [] }
    ["x.pdf"] rfl (fun _ _ => rfl) rfl).2.2.1 (by decide)

end Server
